import Mathlib

/-!
Verification development for the autocorrelation module of pyhmc
(file `pyhmc/autocorr1.py`, functions `autocorr` and `integrated_autocorr1`).

Modelling conventions.

* A multi-dimensional series `x` (time along axis 0) is represented
  column-major: `x : List (List ℚ)` is the list of its dimensions, each
  dimension being the list of that dimension's samples over time.  Every
  operation of the source (`np.mean(x, axis=0)`, `np.fft.fft(..., axis=0)`,
  elementwise multiply, slicing along axis 0, `acf / acf[0, :]`,
  `find_first`, the `for j in range(x.shape[1])` loop) acts on each
  dimension independently, so this representation is faithful.  A
  one-dimensional input (which `integrated_autocorr1` reshapes to `(-1, 1)`)
  is the singleton list of its only column.

* Samples are exact rationals `ℚ`; the floating-point doubles of the source
  are modelled by exact real/rational arithmetic.

* The FFT pipeline of `autocorr`,
  `np.fft.ifft(f * np.conjugate(f), axis=axis).real` with
  `f = np.fft.fft(z, n=m, axis=axis)`, is embedded by its exact value over
  the reals.  For a real vector `y` of length `m` (the centered series
  zero-padded to the FFT length `m`), the Wiener-Khinchin identity for the
  discrete Fourier transform gives, exactly,
  `ifft(fft(y) * conj(fft(y)))[l] = sum over t < m of y[t] * y[(t+l) mod m]`
  with zero imaginary part: the circular autocorrelation of `y` at lag `l`.
  `circCorr` below is this exact value; `.real` is the identity on it.

* `scipy.signal.signaltools._next_regular(target)` returns the smallest
  5-smooth integer (only prime factors 2, 3 and 5) that is at least
  `target`; `next_regular` below computes exactly that by a fuel-bounded
  upward search (a power of two at most `2 * target` always exists, so the
  fuel is never exhausted for positive targets).

* Python exceptions are modelled by `Except` / `Option` results.
-/

namespace PyHMC

/-- `np.mean` of one dimension's samples (`np.mean(x, axis=axis)` for one
column).  On an empty list this gives `0` (numpy would give NaN; no claim
below depends on the empty-mean value itself, only on the error that the
later lag-0 indexing raises). -/
def mean (xs : List ℚ) : ℚ := xs.sum / xs.length

/-- `x = x - np.mean(x, axis=axis)`: mean-centering of one dimension. -/
def center (xs : List ℚ) : List ℚ := xs.map (fun v => v - mean xs)

/-- Divide the factor `p` out of `m` as often as possible (fuel-bounded so
that the kernel can evaluate it; fuel `m` is always enough). -/
def stripAux : ℕ → ℕ → ℕ → ℕ
  | 0, _, m => m
  | fuel + 1, p, m => if 2 ≤ p ∧ 0 < m ∧ m % p = 0 then stripAux fuel p (m / p) else m

/-- Is `m` a regular ("5-smooth") FFT size, i.e. has only 2, 3, 5 as prime
factors?  This is the notion of regular size used by
`scipy.signal.signaltools._next_regular`. -/
def isRegular (m : ℕ) : Bool :=
  stripAux m 5 (stripAux m 3 (stripAux m 2 m)) = 1

/-- Fuel-bounded upward search for the next regular size. -/
def nrAux : ℕ → ℕ → ℕ
  | 0, m => m
  | fuel + 1, m => if isRegular m then m else nrAux fuel (m + 1)

/-- `scipy.signal.signaltools._next_regular(target)`: the smallest 5-smooth
integer that is `≥ target`.  The fuel `2 * target + 2` always suffices
because some power of two lies in `[target, 2 * target]` for `target ≥ 1`. -/
def next_regular (target : ℕ) : ℕ := nrAux (2 * target + 2) target

/-- Exact value of `np.fft.ifft(f * np.conjugate(f), axis=axis)[l].real`
for `f = np.fft.fft(y, n=m, axis=axis)` and a real signal `y` (one
dimension, already zero-padded/cropped to length `m`): by the
Wiener-Khinchin identity for the DFT this is the circular autocorrelation
`sum over t < m of y[t] * y[(t + l) mod m]`, exactly, with zero imaginary
part. -/
def circCorr (y : List ℚ) (m l : ℕ) : ℚ :=
  ((List.range m).map (fun t => y.getD t 0 * y.getD ((t + l) % m) 0)).sum

/-- Zero-padding of the centered signal to the FFT length `m`
(`np.fft.fft(x, n=m, axis=axis)` pads the time axis with zeros). -/
def padded (m : ℕ) (z : List ℚ) : List ℚ := z ++ List.replicate (m - z.length) 0

/-- The body of `autocorr` for one dimension, with the FFT length `m` kept
as an explicit parameter:
`acf = np.fft.ifft(f * np.conjugate(f), axis=axis)[m].real` truncated to the
first `n` lags, then `acf / acf[0]`.  `none` models the `IndexError` that
`acf[0]` raises when the time axis is empty. -/
def autocorrPadNorm (m : ℕ) (xs : List ℚ) : Option (List ℚ) :=
  match ((List.range xs.length).map (fun l => circCorr (padded m (center xs)) m l)).head? with
  | none => none
  | some c0 =>
    some (((List.range xs.length).map (fun l => circCorr (padded m (center xs)) m l)).map
      (fun v => v / c0))

/-- `autocorr(x, axis=0)` for one dimension: the FFT length is
`_next_regular(n + 1)` as in the source. -/
def autocorr_col (xs : List ℚ) : Option (List ℚ) :=
  autocorrPadNorm (next_regular (xs.length + 1)) xs

/-- `autocorr(x, axis=0)` on a multi-dimensional series (column-major):
every dimension is processed independently; the whole call raises
(`none`) exactly when some dimension's time axis is empty. -/
def autocorr : List (List ℚ) → Option (List (List ℚ))
  | [] => some []
  | col :: rest =>
    match autocorr_col col, autocorr rest with
    | some fc, some frest => some (fc :: frest)
    | _, _ => none

/-- Modelled from the spec: `find_first` (imported from `pyhmc._utils`,
whose source is not under `src/`): given per-dimension 0/1 flags along the
time axis, it returns for each dimension the index of the first `1`/true
entry, or the sequence length if none is found.  `List.findIdx` has exactly
this contract. -/
def find_first (flags : List (List Bool)) : List ℕ :=
  flags.map (fun col => col.findIdx id)

/-- The `window` argument of `integrated_autocorr1`: `None`, a numeric
scalar, an array/list, or a Python string. -/
inductive WindowArg
  | wNone
  | wScalar (w : ℕ)
  | wList (ws : List ℤ)
  | wStr (s : String)
deriving DecidableEq

/-- The Python exceptions the embedded code can raise: the `IndexError`
from `acf[0]` on an empty time axis, the `NotImplementedError` of the
unsupported-window branch, and the `TypeError` numpy raises when a string
is multiplied with `np.ones(d)`. -/
inductive IATError
  | indexError
  | notImplementedError
  | typeError
deriving DecidableEq

/-- `np.isscalar`: true for numbers and also for Python strings. -/
def isscalar : WindowArg → Bool
  | .wScalar _ => true
  | .wStr _ => true
  | _ => false

/-- Window resolution of `integrated_autocorr1` (lines 50-55 of the
source), for `d = x.shape[1]` dimensions and ACF `f`:

* `window is None`: `window = find_first((f < 0).astype(np.uint8))`;
* `np.isscalar(window)` with a number: `window = window * np.ones(d)`,
  i.e. the same window for every dimension;
* `np.isscalar(window)` with a string (`np.isscalar` is true on strings):
  the multiplication `window * np.ones(d)` raises a `TypeError`;
* anything else (lists, arrays, ...): `raise NotImplementedError()`. -/
def resolveWindow (d : ℕ) (f : List (List ℚ)) : WindowArg → Except IATError (List ℕ)
  | .wNone => .ok (find_first (f.map (fun col => col.map (fun v => decide (v < 0)))))
  | .wScalar w => .ok (List.replicate d w)
  | .wStr _ => .error .typeError
  | .wList _ => .error .notImplementedError

/-- One iteration of the final loop of `integrated_autocorr1`:
`tau[j] = 1 + 2 * np.sum(f[:window[j], j])` (the Python slice `f[:w]`
keeps lags `0 ... w-1`, clamped to the available length, exactly as
`List.take`). -/
def tauOf (col : List ℚ) (w : ℕ) : ℚ := 1 + 2 * (col.take w).sum

/-- `integrated_autocorr1(x, window)`: compute `f = autocorr(x, axis=0)`,
resolve the window per dimension, then
`tau[j] = 1 + 2 * np.sum(f[:window[j], j])` for every dimension `j`.
Errors propagate in source order: the ACF computation runs (and can raise)
before the window argument is examined. -/
def integrated_autocorr1 (x : List (List ℚ)) (window : WindowArg) : Except IATError (List ℚ) :=
  match autocorr x with
  | none => .error .indexError
  | some f =>
    match resolveWindow x.length f window with
    | .error e => .error e
    | .ok ws => .ok (List.zipWith tauOf f ws)

/-- The per-dimension automatic window actually computed when
`window is None`: the first index at which the ACF of that dimension is
negative, or the series length if it never is. -/
def autoWindow (fc : List ℚ) : ℕ := fc.findIdx (fun v => decide (v < 0))

/-- Direct (linear, non-circular) lag-`l` correlation of a centered series:
`sum over t of z[t] * z[t + l]` for `t` ranging over `0 ... n - 1 - l`. -/
def linCorr (z : List ℚ) (l : ℕ) : ℚ :=
  ((List.range (z.length - l)).map (fun t => z.getD t 0 * z.getD (t + l) 0)).sum

/-- The reference value the spec asserts for the ACF: the direct
lag-by-lag autocorrelation of the mean-centered series, normalized by the
lag-0 value.  (Stated from the spec's words, to be compared with the
FFT-based `autocorr_col` of the source.) -/
def directACF (xs : List ℚ) : List ℚ :=
  let z := center xs
  let raw := (List.range xs.length).map (linCorr z)
  raw.map (fun v => v / raw.getD 0 0)

/-- Sum of squares of the centered series: the unnormalized lag-0
autocorrelation.  It is nonzero exactly when the dimension has nonzero
variance. -/
def sumSq (xs : List ℚ) : ℚ :=
  ((List.range xs.length).map (fun t => (center xs).getD t 0 * (center xs).getD t 0)).sum

/-- The IAT formula as the spec's data model states it:
`1 + 2 * sum(ACF[1:window])`, the sum excluding the lag-0 term.  (Stated
from the spec's words, to be compared with the source's `tauOf`.) -/
def specTauExcl (col : List ℚ) (w : ℕ) : ℚ := 1 + 2 * ((col.take w).drop 1).sum

/-! ### Helper lemmas -/

theorem getD_replicate_zero (k t : ℕ) : (List.replicate k (0 : ℚ)).getD t 0 = 0 := by
  induction k generalizing t with
  | zero => cases t <;> rfl
  | succ n ih =>
    cases t with
    | zero => rfl
    | succ t => rw [List.replicate_succ, List.getD_cons_succ]; exact ih t

theorem append_replicate_getD (z : List ℚ) (k t : ℕ) :
    (z ++ List.replicate k (0 : ℚ)).getD t 0 = z.getD t 0 := by
  induction z generalizing t with
  | nil =>
    rw [List.nil_append, getD_replicate_zero]
    cases t <;> rfl
  | cons a z ih =>
    cases t with
    | zero => rfl
    | succ t => rw [List.cons_append, List.getD_cons_succ, List.getD_cons_succ]; exact ih t

theorem padded_getD (m : ℕ) (z : List ℚ) (t : ℕ) : (padded m z).getD t 0 = z.getD t 0 :=
  append_replicate_getD z (m - z.length) t

theorem length_center (xs : List ℚ) : (center xs).length = xs.length := List.length_map _ _

theorem listSum_range_eq (f : ℕ → ℚ) (m : ℕ) :
    ((List.range m).map f).sum = ∑ t ∈ Finset.range m, f t := by
  induction m with
  | zero => rfl
  | succ k ih => rw [List.sum_range_succ, Finset.sum_range_succ, ih]

theorem le_nrAux (fuel : ℕ) : ∀ m, m ≤ nrAux fuel m := by
  induction fuel with
  | zero => intro m; exact Nat.le_refl m
  | succ k ih =>
    intro m
    unfold nrAux
    by_cases h : isRegular m
    · simp [h]
    · simp only [h, if_false]
      exact Nat.le_trans (Nat.le_succ m) (ih (m + 1))

theorem le_next_regular (t : ℕ) : t ≤ next_regular t := le_nrAux _ t

/-- No-wraparound lemma: once the FFT length is at least `2 n - 1`, the
circular autocorrelation of the zero-padded signal agrees with the direct
(linear) lag correlation at every lag below `n`. -/
theorem circCorr_pad_eq_lin (z : List ℚ) (m l : ℕ) (hl : l < z.length)
    (hm : 2 * z.length - 1 ≤ m) :
    circCorr (padded m z) m l = linCorr z l := by
  have hnm : z.length ≤ m := by omega
  unfold circCorr linCorr
  rw [listSum_range_eq, listSum_range_eq]
  have hstep : ∀ t ∈ Finset.range m,
      (padded m z).getD t 0 * (padded m z).getD ((t + l) % m) 0
        = z.getD t 0 * z.getD ((t + l) % m) 0 := by
    intro t _
    rw [padded_getD, padded_getD]
  rw [Finset.sum_congr rfl hstep]
  have hsub : Finset.range (z.length - l) ⊆ Finset.range m :=
    Finset.range_subset.2 (by omega)
  have hvanish : ∀ t ∈ Finset.range m, t ∉ Finset.range (z.length - l) →
      z.getD t 0 * z.getD ((t + l) % m) 0 = 0 := by
    intro t htm hts
    have ht1 : z.length - l ≤ t := by
      have := Finset.mem_range.not.1 hts
      omega
    have ht2 : t < m := Finset.mem_range.1 htm
    rcases Nat.lt_or_ge t z.length with h | h
    · have hmod : (t + l) % m = t + l := Nat.mod_eq_of_lt (by omega)
      rw [hmod, List.getD_eq_default _ _ (by omega : z.length ≤ t + l), mul_zero]
    · rw [List.getD_eq_default _ _ h, zero_mul]
  rw [← Finset.sum_subset hsub hvanish]
  refine Finset.sum_congr rfl fun t ht => ?_
  have htr : t < z.length - l := Finset.mem_range.1 ht
  rw [Nat.mod_eq_of_lt (by omega)]

/-- At lag 0, the circular autocorrelation of the zero-padded centered
signal is the centered sum of squares. -/
theorem circCorr_pad_zero (xs : List ℚ) (m : ℕ) (hm : xs.length ≤ m) :
    circCorr (padded m (center xs)) m 0 = sumSq xs := by
  unfold circCorr sumSq
  rw [listSum_range_eq, listSum_range_eq]
  have hzm : (center xs).length ≤ m := by rw [length_center]; exact hm
  have hstep : ∀ t ∈ Finset.range m,
      (padded m (center xs)).getD t 0 * (padded m (center xs)).getD ((t + 0) % m) 0
        = (center xs).getD t 0 * (center xs).getD t 0 := by
    intro t ht
    rw [padded_getD, padded_getD, Nat.add_zero, Nat.mod_eq_of_lt (Finset.mem_range.1 ht)]
  rw [Finset.sum_congr rfl hstep]
  have hsub : Finset.range xs.length ⊆ Finset.range m := Finset.range_subset.2 hm
  have hvanish : ∀ t ∈ Finset.range m, t ∉ Finset.range xs.length →
      (center xs).getD t 0 * (center xs).getD t 0 = 0 := by
    intro t _ hts
    have ht1 : xs.length ≤ t := by
      have := Finset.mem_range.not.1 hts
      omega
    rw [List.getD_eq_default _ _ (by rw [length_center]; exact ht1), zero_mul]
  rw [← Finset.sum_subset hsub hvanish]

theorem head?_map_range (g : ℕ → ℚ) (n : ℕ) (hn : 0 < n) :
    ((List.range n).map g).head? = some (g 0) := by
  cases n with
  | zero => omega
  | succ k => rw [List.range_succ_eq_map, List.map_cons, List.head?_cons]

theorem getD_zero_map_range (g : ℕ → ℚ) (h : ℚ → ℚ) (n : ℕ) (hn : 0 < n) :
    (((List.range n).map g).map h).getD 0 0 = h (g 0) := by
  cases n with
  | zero => omega
  | succ k => rw [List.range_succ_eq_map, List.map_cons, List.map_cons, List.getD_cons_zero]

theorem autocorrPadNorm_eq_none (m : ℕ) (xs : List ℚ) (h : xs.length = 0) :
    autocorrPadNorm m xs = none := by
  unfold autocorrPadNorm
  rw [h]
  rfl

theorem autocorrPadNorm_eq_some (m : ℕ) (xs : List ℚ) (hn : 0 < xs.length) :
    autocorrPadNorm m xs = some (((List.range xs.length).map
        (fun l => circCorr (padded m (center xs)) m l)).map
      (fun v => v / circCorr (padded m (center xs)) m 0)) := by
  unfold autocorrPadNorm
  rw [head?_map_range _ _ hn]

theorem autocorr_col_facts (xs : List ℚ) (f : List ℚ) (h : autocorr_col xs = some f) :
    0 < xs.length ∧ f.length = xs.length ∧ f.getD 0 0 = sumSq xs / sumSq xs := by
  have hn : 0 < xs.length := by
    by_contra hn
    have h0 : xs.length = 0 := by omega
    rw [autocorr_col, autocorrPadNorm_eq_none _ _ h0] at h
    exact Option.noConfusion h
  rw [autocorr_col, autocorrPadNorm_eq_some _ _ hn] at h
  have hf := Option.some.inj h
  subst hf
  have hm : xs.length ≤ next_regular (xs.length + 1) :=
    Nat.le_trans (Nat.le_succ _) (le_next_regular _)
  refine ⟨hn, by simp, ?_⟩
  rw [getD_zero_map_range _ _ _ hn]
  show circCorr _ _ 0 / circCorr _ _ 0 = _
  rw [circCorr_pad_zero xs _ hm]

theorem autocorr_forall₂ (x f : List (List ℚ)) (h : autocorr x = some f) :
    List.Forall₂ (fun col fc => autocorr_col col = some fc) x f := by
  induction x generalizing f with
  | nil =>
    have hf : f = [] := (Option.some.inj h).symm
    subst hf
    exact List.Forall₂.nil
  | cons col rest ih =>
    rcases hc : autocorr_col col with _ | fc <;>
      rcases hr : autocorr rest with _ | fr <;>
        rw [autocorr, hc, hr] at h
    · exact Option.noConfusion h
    · exact Option.noConfusion h
    · exact Option.noConfusion h
    · have hcons := Option.some.inj h
      subst hcons
      exact List.Forall₂.cons hc (ih fr hr)

theorem autocorr_length (x f : List (List ℚ)) (h : autocorr x = some f) :
    f.length = x.length :=
  (List.Forall₂.length_eq (autocorr_forall₂ x f h)).symm

theorem integrated_eq_ok (x f : List (List ℚ)) (ws : List ℕ) (arg : WindowArg)
    (hf : autocorr x = some f) (hw : resolveWindow x.length f arg = .ok ws) :
    integrated_autocorr1 x arg = .ok (List.zipWith tauOf f ws) := by
  unfold integrated_autocorr1
  rw [hf]
  show (match resolveWindow x.length f arg with
    | .error e => (.error e : Except IATError (List ℚ))
    | .ok ws => .ok (List.zipWith tauOf f ws)) = _
  rw [hw]

theorem integrated_eq_error (x f : List (List ℚ)) (e : IATError) (arg : WindowArg)
    (hf : autocorr x = some f) (hw : resolveWindow x.length f arg = .error e) :
    integrated_autocorr1 x arg = .error e := by
  unfold integrated_autocorr1
  rw [hf]
  show (match resolveWindow x.length f arg with
    | .error e => (.error e : Except IATError (List ℚ))
    | .ok ws => .ok (List.zipWith tauOf f ws)) = _
  rw [hw]

theorem zipWith_tauOf_replicate (f : List (List ℚ)) (w : ℕ) :
    List.zipWith tauOf f (List.replicate f.length w) = f.map (fun col => tauOf col w) := by
  induction f with
  | nil => rfl
  | cons c cs ih =>
    rw [List.length_cons, List.replicate_succ, List.zipWith_cons_cons, List.map_cons, ih]

theorem findIdx_getD_of_lt (p : ℚ → Bool) (l : List ℚ) (i : ℕ) (h : i < l.findIdx p) :
    p (l.getD i 0) = false := by
  have hi : i < l.length := Nat.lt_of_lt_of_le h (List.findIdx_le_length p)
  rw [List.getD_eq_getElem l 0 hi]
  exact List.not_of_lt_findIdx h

theorem findIdx_getD_self (p : ℚ → Bool) (l : List ℚ) (h : l.findIdx p < l.length) :
    p (l.getD (l.findIdx p) 0) = true := by
  rw [List.getD_eq_getElem l 0 h]
  exact List.findIdx_getElem

theorem findIdx_map_id (g : ℚ → Bool) (l : List ℚ) :
    (l.map g).findIdx id = l.findIdx g := by
  induction l with
  | nil => rfl
  | cons a t ih => simp [List.findIdx_cons, ih]

theorem find_first_eq (f : List (List ℚ)) :
    find_first (f.map (fun col => col.map (fun v => decide (v < 0)))) = f.map autoWindow := by
  unfold find_first autoWindow
  rw [List.map_map]
  exact List.map_congr_left fun col _ => findIdx_map_id _ col

theorem sum_map_add_const (xs : List ℚ) (c : ℚ) :
    (xs.map (fun v => v + c)).sum = xs.sum + xs.length * c := by
  induction xs with
  | nil => simp
  | cons a t ih =>
    simp only [List.map_cons, List.sum_cons, ih, List.length_cons]
    push_cast
    ring

theorem mean_map_add (xs : List ℚ) (c : ℚ) (h : xs ≠ []) :
    mean (xs.map (fun v => v + c)) = mean xs + c := by
  have hl : (xs.length : ℚ) ≠ 0 := by
    have hll : xs.length ≠ 0 := fun hh => h (List.length_eq_zero.1 hh)
    exact_mod_cast hll
  unfold mean
  rw [sum_map_add_const, List.length_map]
  field_simp
  ring

theorem center_map_add (xs : List ℚ) (c : ℚ) :
    center (xs.map (fun v => v + c)) = center xs := by
  rcases eq_or_ne xs [] with rfl | h
  · rfl
  · unfold center
    rw [mean_map_add xs c h, List.map_map]
    exact List.map_congr_left fun a _ => by simp [Function.comp]

theorem autocorr_col_map_add (xs : List ℚ) (c : ℚ) :
    autocorr_col (xs.map (fun v => v + c)) = autocorr_col xs := by
  unfold autocorr_col autocorrPadNorm
  rw [center_map_add, List.length_map]

theorem forall₂_exists_left (R : List ℚ → List ℚ → Prop) :
    ∀ {x f : List (List ℚ)}, List.Forall₂ R x f → ∀ fc ∈ f, ∃ col ∈ x, R col fc := by
  intro x f h
  induction h with
  | nil => intro fc hfc; exact absurd hfc (List.not_mem_nil fc)
  | @cons col fc rest frest hR _ ih =>
    intro b hb
    rcases List.mem_cons.1 hb with rfl | hmem
    · exact ⟨col, List.mem_cons_self col rest, hR⟩
    · obtain ⟨c2, hc2, hr⟩ := ih b hmem
      exact ⟨c2, List.mem_cons_of_mem col hc2, hr⟩

/-! ### Claim theorems -/

/-- Claim C8: a series whose time axis has zero length makes
`integrated_autocorr1` raise an error (the `acf[0]` lag-0 indexing fails on
the empty axis) instead of returning a numeric result, whatever the window
argument. -/
theorem empty_series_raises (rest : List (List ℚ)) (arg : WindowArg) :
    integrated_autocorr1 (([] : List ℚ) :: rest) arg = .error .indexError := by
  have hnone : autocorr (([] : List ℚ) :: rest) = none := by
    unfold autocorr
    rcases hr : autocorr rest with _ | fr <;> rfl
  unfold integrated_autocorr1
  rw [hnone]

/-- Claim C9: adding one constant to every sample of every dimension leaves
the ACF unchanged, because the series is mean-centered before
correlation. -/
theorem acf_shift_invariant (x : List (List ℚ)) (c : ℚ) :
    autocorr (x.map (fun col => col.map (fun v => v + c))) = autocorr x := by
  induction x with
  | nil => rfl
  | cons col rest ih =>
    rw [List.map_cons]
    unfold autocorr
    rw [autocorr_col_map_add, ih]

/-- Claim C5: on an input with nonzero variance in every dimension, the ACF
returned by `autocorr` is exactly `1` at lag 0 in every dimension. -/
theorem acf_lag0_is_one (x f : List (List ℚ)) (hf : autocorr x = some f)
    (hvar : ∀ col ∈ x, sumSq col ≠ 0) :
    ∀ fc ∈ f, fc.getD 0 0 = 1 := by
  intro fc hfc
  obtain ⟨col, hcol, hc⟩ := forall₂_exists_left _ (autocorr_forall₂ x f hf) fc hfc
  have hfacts := autocorr_col_facts col fc hc
  rw [hfacts.2.2]
  exact div_self (hvar col hcol)

/-- Claim C5 witness: a concrete two-sample series. -/
theorem acf_lag0_is_one_witness :
    autocorr [[(1 : ℚ), 0]] = some [[1, -1/2]] ∧
    (∀ col ∈ [[(1 : ℚ), 0]], sumSq col ≠ 0) ∧
    (∀ fc ∈ [[(1 : ℚ), -1/2]], fc.getD 0 0 = 1) := by
  have hf : autocorr [[(1 : ℚ), 0]] = some [[1, -1/2]] := by
    norm_num [autocorr, autocorr_col, autocorrPadNorm, circCorr, padded, center, mean,
      show next_regular 3 = 3 from by decide,
      show List.range 2 = [0, 1] from by decide,
      show List.range 3 = [0, 1, 2] from by decide]
  have hvar : ∀ col ∈ [[(1 : ℚ), 0]], sumSq col ≠ 0 := by
    intro col hcol
    rw [List.mem_singleton.1 hcol]
    norm_num [sumSq, center, mean, show List.range 2 = [0, 1] from by decide]
  exact ⟨hf, hvar, acf_lag0_is_one _ _ hf hvar⟩

/-- Claim C6: a scalar window `w` is broadcast to every dimension, and the
result equals the per-dimension truncated sum `1 + 2 * sum(f[0:w, j])`. -/
theorem scalar_window_broadcasts (x f : List (List ℚ)) (w : ℕ) (hf : autocorr x = some f) :
    integrated_autocorr1 x (.wScalar w) = .ok (f.map (fun col => 1 + 2 * (col.take w).sum)) := by
  rw [integrated_eq_ok x f (List.replicate x.length w) (.wScalar w) hf rfl,
    ← autocorr_length x f hf, zipWith_tauOf_replicate]
  rfl

/-- Claim C6 witness: a concrete series with scalar window 2. -/
theorem scalar_window_broadcasts_witness :
    autocorr [[(2 : ℚ), 4]] = some [[1, -1/2]] ∧
    integrated_autocorr1 [[(2 : ℚ), 4]] (.wScalar 2) = .ok [2] := by
  have hf : autocorr [[(2 : ℚ), 4]] = some [[1, -1/2]] := by
    norm_num [autocorr, autocorr_col, autocorrPadNorm, circCorr, padded, center, mean,
      show next_regular 3 = 3 from by decide,
      show List.range 2 = [0, 1] from by decide,
      show List.range 3 = [0, 1, 2] from by decide]
  refine ⟨hf, ?_⟩
  rw [scalar_window_broadcasts [[(2 : ℚ), 4]] [[1, -1/2]] 2 hf]
  norm_num

/-- Claim C10: with scalar window `0`, the truncated ACF sum is empty and
every dimension's integrated autocorrelation time is exactly `1`. -/
theorem zero_window_gives_one (x f : List (List ℚ)) (hf : autocorr x = some f) :
    integrated_autocorr1 x (.wScalar 0) = .ok (List.replicate x.length 1) := by
  rw [integrated_eq_ok x f (List.replicate x.length 0) (.wScalar 0) hf rfl,
    ← autocorr_length x f hf, zipWith_tauOf_replicate]
  congr 1
  refine List.eq_replicate_iff.2 ⟨by simp, ?_⟩
  intro b hb
  obtain ⟨col, _, hcol⟩ := List.mem_map.1 hb
  rw [← hcol]
  unfold tauOf
  norm_num

/-- Claim C10 witness: a two-dimensional series with window 0. -/
theorem zero_window_gives_one_witness :
    autocorr [[(1 : ℚ), 0], [2, 4]] = some [[1, -1/2], [1, -1/2]] ∧
    integrated_autocorr1 [[(1 : ℚ), 0], [2, 4]] (.wScalar 0) = .ok [1, 1] := by
  have hf : autocorr [[(1 : ℚ), 0], [2, 4]] = some [[1, -1/2], [1, -1/2]] := by
    norm_num [autocorr, autocorr_col, autocorrPadNorm, circCorr, padded, center, mean,
      show next_regular 3 = 3 from by decide,
      show List.range 2 = [0, 1] from by decide,
      show List.range 3 = [0, 1, 2] from by decide]
  refine ⟨hf, ?_⟩
  rw [zero_window_gives_one _ _ hf]
  rfl


/-- Claim C2 (amended): for every resolved per-dimension window, the
returned value is `tau_int[j] = 1 + 2 * sum(f[0:w[j], j])` — the truncated
sum includes the lag-0 term (the spec's data-model formula
`1 + 2 * sum(ACF[1:window])`, which excludes lag 0, does not match the
code). -/
theorem tau_sums_acf_from_lag_zero (x f : List (List ℚ)) (ws : List ℕ) (arg : WindowArg)
    (hf : autocorr x = some f) (hw : resolveWindow x.length f arg = .ok ws) :
    integrated_autocorr1 x arg =
      .ok (List.zipWith (fun col w => 1 + 2 * (col.take w).sum) f ws) := by
  rw [integrated_eq_ok x f ws arg hf hw]
  rfl

/-- Claim C2 witness: the concrete series `[1, 0]` with scalar window 1. -/
theorem tau_sums_acf_from_lag_zero_witness :
    autocorr [[(1 : ℚ), 0]] = some [[1, -1/2]] ∧
    resolveWindow 1 [[(1 : ℚ), -1/2]] (.wScalar 1) = .ok [1] ∧
    integrated_autocorr1 [[(1 : ℚ), 0]] (.wScalar 1) = .ok [3] := by
  have hf : autocorr [[(1 : ℚ), 0]] = some [[1, -1/2]] := by
    norm_num [autocorr, autocorr_col, autocorrPadNorm, circCorr, padded, center, mean,
      show next_regular 3 = 3 from by decide,
      show List.range 2 = [0, 1] from by decide,
      show List.range 3 = [0, 1, 2] from by decide]
  refine ⟨hf, rfl, ?_⟩
  rw [tau_sums_acf_from_lag_zero [[(1 : ℚ), 0]] [[1, -1/2]] [1] (.wScalar 1) hf rfl]
  norm_num

/-- Claim C2 counterexample: on `[1, 0]` with window 1 the code returns
`tau = 3` (it sums from lag 0), while the spec data-model formula
`1 + 2 * sum(ACF[1:1])` gives `1`. -/
theorem tau_excluding_lag_zero_cex :
    integrated_autocorr1 [[(1 : ℚ), 0]] (.wScalar 1) = .ok [3] ∧
    autocorr [[(1 : ℚ), 0]] = some [[1, -1/2]] ∧
    specTauExcl [(1 : ℚ), -1/2] 1 = 1 ∧ (3 : ℚ) ≠ 1 := by
  have hf : autocorr [[(1 : ℚ), 0]] = some [[1, -1/2]] := by
    norm_num [autocorr, autocorr_col, autocorrPadNorm, circCorr, padded, center, mean,
      show next_regular 3 = 3 from by decide,
      show List.range 2 = [0, 1] from by decide,
      show List.range 3 = [0, 1, 2] from by decide]
  refine ⟨?_, hf, by norm_num [specTauExcl], by norm_num⟩
  rw [integrated_eq_ok [[(1 : ℚ), 0]] [[1, -1/2]] [1] (.wScalar 1) hf rfl]
  norm_num [tauOf]

/-- Claim C3: with `window=None`, the window used for each dimension is the
first lag at which that dimension's ACF is negative: it is at least 1
(lag 0 is never negative), it is minimal (no earlier lag is negative), it
points at a negative ACF value whenever it is below the series length, and
it equals the series length when the ACF never goes negative; no error is
raised. -/
theorem auto_window_is_first_negative_lag (x f : List (List ℚ)) (hf : autocorr x = some f) :
    (∃ taus, integrated_autocorr1 x .wNone = .ok taus) ∧
    resolveWindow x.length f .wNone = .ok (f.map autoWindow) ∧
    List.Forall₂ (fun col fc => fc.length = col.length) x f ∧
    (∀ fc ∈ f, 1 ≤ autoWindow fc ∧ autoWindow fc ≤ fc.length ∧
      (∀ l, l < autoWindow fc → ¬ fc.getD l 0 < 0) ∧
      (autoWindow fc < fc.length → fc.getD (autoWindow fc) 0 < 0) ∧
      ((∀ l, l < fc.length → ¬ fc.getD l 0 < 0) → autoWindow fc = fc.length)) := by
  have hres : resolveWindow x.length f .wNone = .ok (f.map autoWindow) := by
    unfold resolveWindow
    rw [find_first_eq]
  refine ⟨⟨_, integrated_eq_ok x f (f.map autoWindow) .wNone hf hres⟩, hres,
    List.Forall₂.imp (fun col fc h => (autocorr_col_facts col fc h).2.1)
      (autocorr_forall₂ x f hf), ?_⟩
  intro fc hfc
  obtain ⟨col, _, hc⟩ := forall₂_exists_left _ (autocorr_forall₂ x f hf) fc hfc
  obtain ⟨hn, hlen, hd0⟩ := autocorr_col_facts col fc hc
  have hflen : 0 < fc.length := by rw [hlen]; exact hn
  have h00 : ¬ fc.getD 0 0 < 0 := by
    rw [hd0]
    rcases eq_or_ne (sumSq col) 0 with h0 | h0
    · rw [h0, div_zero]
      norm_num
    · rw [div_self h0]
      norm_num
  have hmin : ∀ l, l < autoWindow fc → ¬ fc.getD l 0 < 0 := by
    intro l hl
    have := findIdx_getD_of_lt (fun v => decide (v < 0)) fc l hl
    exact of_decide_eq_false this
  have hhit : autoWindow fc < fc.length → fc.getD (autoWindow fc) 0 < 0 := by
    intro hlt
    exact of_decide_eq_true (findIdx_getD_self (fun v => decide (v < 0)) fc hlt)
  have hle : autoWindow fc ≤ fc.length := List.findIdx_le_length _
  refine ⟨?_, hle, hmin, hhit, ?_⟩
  · by_contra hlt
    have hw0 : autoWindow fc = 0 := by omega
    have := hhit (by omega)
    rw [hw0] at this
    exact h00 this
  · intro hall
    rcases Nat.lt_or_ge (autoWindow fc) fc.length with hlt | hge
    · exact absurd (hhit hlt) (hall _ hlt)
    · omega

/-- Claim C3 witness: for the series `[1, 0, 0]` the ACF is
`[1, -1/6, -2/3]`, so the auto window resolution succeeds. -/
theorem auto_window_is_first_negative_lag_witness :
    autocorr [[(1 : ℚ), 0, 0]] = some [[1, -1/6, -2/3]] ∧
    resolveWindow 1 [[(1 : ℚ), -1/6, -2/3]] .wNone =
      .ok ([[(1 : ℚ), -1/6, -2/3]].map autoWindow) ∧
    (∃ taus, integrated_autocorr1 [[(1 : ℚ), 0, 0]] .wNone = .ok taus) := by
  have hf : autocorr [[(1 : ℚ), 0, 0]] = some [[1, -1/6, -2/3]] := by
    norm_num [autocorr, autocorr_col, autocorrPadNorm, circCorr, padded, center, mean,
      show next_regular 4 = 4 from by decide,
      show List.range 3 = [0, 1, 2] from by decide,
      show List.range 4 = [0, 1, 2, 3] from by decide]
  have h := auto_window_is_first_negative_lag [[(1 : ℚ), 0, 0]] [[1, -1/6, -2/3]] hf
  exact ⟨hf, h.2.1, h.1⟩

/-- Claim C1 (divergence witness): on the spike series `[1, 0, 0]` the
FFT-based `autocorr` (pad length `_next_regular(n+1) = 4 < 2n-1`) returns
lag-2 value `-2/3`, while the direct lag-by-lag autocorrelation the spec
asserts gives `-1/3`: the pad to `n+1` does not remove circular
wraparound. -/
theorem fft_acf_differs_from_direct_acf :
    autocorr_col [(1 : ℚ), 0, 0] = some [1, -1/6, -2/3] ∧
    directACF [(1 : ℚ), 0, 0] = [1, -1/6, -1/3] ∧
    autocorr_col [(1 : ℚ), 0, 0] ≠ some (directACF [(1 : ℚ), 0, 0]) := by
  have h1 : autocorr_col [(1 : ℚ), 0, 0] = some [1, -1/6, -2/3] := by
    norm_num [autocorr_col, autocorrPadNorm, circCorr, padded, center, mean,
      show next_regular 4 = 4 from by decide,
      show List.range 3 = [0, 1, 2] from by decide,
      show List.range 4 = [0, 1, 2, 3] from by decide]
  have h2 : directACF [(1 : ℚ), 0, 0] = [1, -1/6, -1/3] := by
    norm_num [directACF, linCorr, center, mean,
      show List.range 3 = [0, 1, 2] from by decide,
      show List.range 2 = [0, 1] from by decide,
      show List.range 1 = [0] from by decide]
  refine ⟨h1, h2, ?_⟩
  rw [h1, h2]
  norm_num

/-- Claim C4 counterexample: pad lengths 4 and 8 are both ≥ n+1 = 4 for the
length-3 series `[1, 0, 0]`, yet the truncated, normalized ACFs differ at
lag 2 (`-2/3` versus `-1/3`): the result is not independent of the choice
of pad length `m ≥ n+1`. -/
theorem pad_length_changes_acf_cex :
    3 + 1 ≤ 4 ∧ 3 + 1 ≤ 8 ∧
    autocorrPadNorm 4 [(1 : ℚ), 0, 0] = some [1, -1/6, -2/3] ∧
    autocorrPadNorm 8 [(1 : ℚ), 0, 0] = some [1, -1/6, -1/3] ∧
    autocorrPadNorm 4 [(1 : ℚ), 0, 0] ≠ autocorrPadNorm 8 [(1 : ℚ), 0, 0] := by
  have h1 : autocorrPadNorm 4 [(1 : ℚ), 0, 0] = some [1, -1/6, -2/3] := by
    norm_num [autocorrPadNorm, circCorr, padded, center, mean,
      show List.range 3 = [0, 1, 2] from by decide,
      show List.range 4 = [0, 1, 2, 3] from by decide]
  have h2 : autocorrPadNorm 8 [(1 : ℚ), 0, 0] = some [1, -1/6, -1/3] := by
    norm_num [autocorrPadNorm, circCorr, padded, center, mean,
      show List.range 3 = [0, 1, 2] from by decide,
      show List.range 8 = [0, 1, 2, 3, 4, 5, 6, 7] from by decide]
  refine ⟨by norm_num, by norm_num, h1, h2, ?_⟩
  rw [h1, h2]
  norm_num

/-- Claim C4 (amended): the truncated, normalized ACF is identical for
every pad length `m ≥ 2n - 1` (the first length at which zero-padding
really removes circular wraparound); both then equal the direct
lag-by-lag values. -/
theorem pad_independent_beyond_wraparound (xs : List ℚ) (m₁ m₂ : ℕ)
    (h₁ : 2 * xs.length - 1 ≤ m₁) (h₂ : 2 * xs.length - 1 ≤ m₂) :
    autocorrPadNorm m₁ xs = autocorrPadNorm m₂ xs := by
  rcases Nat.eq_zero_or_pos xs.length with h0 | hpos
  · rw [autocorrPadNorm_eq_none _ _ h0, autocorrPadNorm_eq_none _ _ h0]
  · have key : ∀ m, 2 * xs.length - 1 ≤ m →
        (List.range xs.length).map (fun l => circCorr (padded m (center xs)) m l)
          = (List.range xs.length).map (linCorr (center xs)) := by
      intro m hm
      refine List.map_congr_left fun l hl => ?_
      exact circCorr_pad_eq_lin (center xs) m l
        (by rw [length_center]; exact List.mem_range.1 hl)
        (by rw [length_center]; exact hm)
    rw [autocorrPadNorm_eq_some _ _ hpos, autocorrPadNorm_eq_some _ _ hpos,
      circCorr_pad_eq_lin (center xs) m₁ 0 (by rw [length_center]; exact hpos)
        (by rw [length_center]; exact h₁),
      circCorr_pad_eq_lin (center xs) m₂ 0 (by rw [length_center]; exact hpos)
        (by rw [length_center]; exact h₂),
      key m₁ h₁, key m₂ h₂]

/-- Claim C4 witness: pad lengths 5 and 8 (both ≥ 2*3 - 1) agree on
`[1, 0, 0]`. -/
theorem pad_independent_beyond_wraparound_witness :
    2 * 3 - 1 ≤ 5 ∧ 2 * 3 - 1 ≤ 8 ∧
    autocorrPadNorm 5 [(1 : ℚ), 0, 0] = autocorrPadNorm 8 [(1 : ℚ), 0, 0] :=
  ⟨by norm_num, by norm_num,
    pad_independent_beyond_wraparound [(1 : ℚ), 0, 0] 5 8 (by norm_num) (by norm_num)⟩

/-- Claim C7 (amended): a window argument that is neither `None` nor a
scalar under `np.isscalar` — e.g. a list of any length — raises the
unsupported-window `NotImplementedError`; a string window, which
`np.isscalar` classifies as a scalar, instead raises a `TypeError` when it
is multiplied with `np.ones(d)`.  In both cases an error is raised and no
result is computed. -/
theorem unsupported_window_errors (x f : List (List ℚ)) (hf : autocorr x = some f) :
    (∀ ws : List ℤ, integrated_autocorr1 x (.wList ws) = .error .notImplementedError) ∧
    (∀ s : String, integrated_autocorr1 x (.wStr s) = .error .typeError) := by
  constructor
  · intro ws
    exact integrated_eq_error x f .notImplementedError (.wList ws) hf rfl
  · intro s
    exact integrated_eq_error x f .typeError (.wStr s) hf rfl

/-- Claim C7 witness: a concrete list window and a concrete string
window. -/
theorem unsupported_window_errors_witness :
    autocorr [[(1 : ℚ), 0]] = some [[1, -1/2]] ∧
    integrated_autocorr1 [[(1 : ℚ), 0]] (.wList [2, 2]) = .error .notImplementedError ∧
    integrated_autocorr1 [[(1 : ℚ), 0]] (.wStr "w") = .error .typeError := by
  have hf : autocorr [[(1 : ℚ), 0]] = some [[1, -1/2]] := by
    norm_num [autocorr, autocorr_col, autocorrPadNorm, circCorr, padded, center, mean,
      show next_regular 3 = 3 from by decide,
      show List.range 2 = [0, 1] from by decide,
      show List.range 3 = [0, 1, 2] from by decide]
  have h := unsupported_window_errors [[(1 : ℚ), 0]] [[1, -1/2]] hf
  exact ⟨hf, h.1 [2, 2], h.2 "w"⟩

/-- Claim C7 counterexample: a string window does not produce the
unsupported-window configuration error: `np.isscalar` is true on strings,
so the string reaches the broadcast multiplication and fails there with a
`TypeError` instead. -/
theorem string_window_not_config_error_cex :
    integrated_autocorr1 [[(1 : ℚ), 0]] (.wStr "abc") = .error .typeError ∧
    IATError.typeError ≠ IATError.notImplementedError := by
  have hf : autocorr [[(1 : ℚ), 0]] = some [[1, -1/2]] := by
    norm_num [autocorr, autocorr_col, autocorrPadNorm, circCorr, padded, center, mean,
      show next_regular 3 = 3 from by decide,
      show List.range 2 = [0, 1] from by decide,
      show List.range 3 = [0, 1, 2] from by decide]
  exact ⟨integrated_eq_error [[(1 : ℚ), 0]] [[1, -1/2]] .typeError (.wStr "abc") hf rfl,
    by decide⟩

end PyHMC
